import Mathlib

/-!
Verification of the depthmap toolkit (`common/depthmap_toolkit/depthmap.py`).

The Python source is shallowly embedded over exact rational arithmetic:
numpy float arrays of shape `(width, height)` become functions `ℕ → ℕ → ℚ`
(indexed `x` then `y`, exactly like `arr[x, y]` in the source), the integer
mask becomes `ℕ → ℕ → ℤ`, fallible operations (numpy `IndexError`,
`AssertionError`, `reshape` failures) return `Except String _`, and the
explicit-stack flood fill is written with a fuel argument large enough for
every terminating run, fuel exhaustion being an explicit error.
-/

deriving instance DecidableEq for Except

/-- Modelled from the spec: `constants.py` (providing `MASK_FLOOR`,
`MASK_CHILD`, `MASK_INVALID`) is not part of the sources; the spec says the
mask uses "a small positive sentinel for floor", "a small positive sentinel
for invalid" and "one distinguished sentinel for the selected child subject".
We fix three distinct small positive values. -/
def MASK_FLOOR : ℤ := 1

/-- Modelled from the spec: the distinguished sentinel for the selected
child subject (see `MASK_FLOOR`). -/
def MASK_CHILD : ℤ := 2

/-- Modelled from the spec: the small positive sentinel for invalid pixels
(see `MASK_FLOOR`). -/
def MASK_INVALID : ℤ := 3

/-- numpy indexing into an axis of size `n`: an index `i` with `0 ≤ i < n`
is used as is, a negative index with `-n ≤ i` wraps to `n + i`, and
anything else raises `IndexError` (modelled as `none`). -/
def npIndex (n : ℕ) (i : ℤ) : Option ℕ :=
  if 0 ≤ i ∧ i < (n : ℤ) then some i.toNat
  else if -(n : ℤ) ≤ i ∧ i < 0 then some (i + n).toNat
  else none

/-- Pointwise update of a mask array (`mask[a, b] = v`). -/
def updMask (m : ℕ → ℕ → ℤ) (a b : ℕ) (v : ℤ) : ℕ → ℕ → ℤ :=
  fun x y => if x = a ∧ y = b then v else m x y

/-- Index of the right/down neighbour under `scipy.ndimage.convolve`'s
default `reflect` boundary mode, which for a radius-1 kernel clamps: index
`n` reflects to `n - 1`.  (The left/up neighbour `x - 1` is clamped at `0`
by natural subtraction.) -/
def reflectSucc (n x : ℕ) : ℕ :=
  if x + 1 < n then x + 1 else n - 1

/-- `smooth_center = (image_arr == 0.)` at pixel `(x, y)`. -/
def smooth_center (img : ℕ → ℕ → ℚ) (x y : ℕ) : Prop :=
  img x y = 0

/-- `smooth_right[1:, :] = smooth_center[:-1, :]` at pixel `(x, y)`. -/
def smooth_right (img : ℕ → ℕ → ℚ) (x y : ℕ) : Prop :=
  1 ≤ x ∧ img (x - 1) y = 0

/-- `smooth_left[:-1, :] = smooth_center[1:, :]` at pixel `(x, y)`. -/
def smooth_left (w : ℕ) (img : ℕ → ℕ → ℚ) (x y : ℕ) : Prop :=
  x + 1 < w ∧ img (x + 1) y = 0

/-- `smooth_up[:, 1:] = smooth_center[:, :-1]` at pixel `(x, y)`. -/
def smooth_up (img : ℕ → ℕ → ℚ) (x y : ℕ) : Prop :=
  1 ≤ y ∧ img x (y - 1) = 0

/-- `smooth_down[:, :-1] = smooth_center[:, 1:]` at pixel `(x, y)`. -/
def smooth_down (h : ℕ) (img : ℕ → ℕ → ℚ) (x y : ℕ) : Prop :=
  y + 1 < h ∧ img x (y + 1) = 0

instance (img : ℕ → ℕ → ℚ) (x y : ℕ) : Decidable (smooth_center img x y) := by
  unfold smooth_center; infer_instance

instance (img : ℕ → ℕ → ℚ) (x y : ℕ) : Decidable (smooth_right img x y) := by
  unfold smooth_right; infer_instance

instance (w : ℕ) (img : ℕ → ℕ → ℚ) (x y : ℕ) : Decidable (smooth_left w img x y) := by
  unfold smooth_left; infer_instance

instance (img : ℕ → ℕ → ℚ) (x y : ℕ) : Decidable (smooth_up img x y) := by
  unfold smooth_up; infer_instance

instance (h : ℕ) (img : ℕ → ℕ → ℚ) (x y : ℕ) : Decidable (smooth_down h img x y) := by
  unfold smooth_down; infer_instance

/-- `smoothen_depthmap_array`: 5-point cross convolution (uniform weights
`1/5`, `reflect` boundary handling) followed by zeroing every pixel whose
own value or whose in-bounds 4-neighbour value is zero in the input. -/
def smoothen_depthmap_array (w h : ℕ) (img : ℕ → ℕ → ℚ) : ℕ → ℕ → ℚ :=
  fun x y =>
    if smooth_center img x y ∨ smooth_right img x y ∨ smooth_left w img x y
        ∨ smooth_up img x y ∨ smooth_down h img x y then 0
    else
      (img x y + img (x - 1) y + img (reflectSucc w x) y
        + img x (y - 1) + img x (reflectSucc h y)) / 5

/-- The `Depthmap` entity: the fields of `Depthmap.__init__` that the
geometric pipeline reads.  `device_pose_arr` is the 4×4 matrix already
reshaped and transposed as in `__init__`
(`np.array(device_pose).reshape(4, 4).T`). -/
structure Depthmap where
  width : ℕ
  height : ℕ
  intrinsics : ℕ → ℕ → ℚ
  depth_scale : ℚ
  device_pose_arr : ℕ → ℕ → ℚ
  depthmap_arr : ℕ → ℕ → ℚ

/-- `self.sensor = 1`. -/
def Depthmap.sensor : ℕ := 1

/-- `self.fx = self.intrinsics[self.sensor, 0] * self.width`. -/
def Depthmap.fx (dm : Depthmap) : ℚ := dm.intrinsics Depthmap.sensor 0 * dm.width

/-- `self.fy = self.intrinsics[self.sensor, 1] * self.height`. -/
def Depthmap.fy (dm : Depthmap) : ℚ := dm.intrinsics Depthmap.sensor 1 * dm.height

/-- `self.cx = self.intrinsics[self.sensor, 2] * self.width`. -/
def Depthmap.cx (dm : Depthmap) : ℚ := dm.intrinsics Depthmap.sensor 2 * dm.width

/-- `self.cy = self.intrinsics[self.sensor, 3] * self.height`. -/
def Depthmap.cy (dm : Depthmap) : ℚ := dm.intrinsics Depthmap.sensor 3 * dm.height

/-- `self.depthmap_arr_smooth = smoothen_depthmap_array(self.depthmap_arr)`. -/
def Depthmap.depthmap_arr_smooth (dm : Depthmap) : ℕ → ℕ → ℚ :=
  smoothen_depthmap_array dm.width dm.height dm.depthmap_arr

/-- `convert_2d_to_3d`: pixel plus depth to a metric 3D point,
`tx = (x - cx) * depth / fx`, `ty = (y - cy) * depth / fy`. -/
def Depthmap.convert_2d_to_3d (dm : Depthmap) (sensor : ℕ) (x y depth : ℚ) :
    ℚ × ℚ × ℚ :=
  let fx := dm.intrinsics sensor 0 * dm.width
  let fy := dm.intrinsics sensor 1 * dm.height
  let cx := dm.intrinsics sensor 2 * dm.width
  let cy := dm.intrinsics sensor 3 * dm.height
  ((x - cx) * depth / fx, (y - cy) * depth / fy, depth)

/-- `convert_3d_to_2d`: metric point back to pixels,
`tx = x * fx / depth + cx`, `ty = y * fy / depth + cy`. -/
def convert_3d_to_2d (intrinsics : ℕ → ℚ) (x y depth : ℚ) (width height : ℕ) :
    ℚ × ℚ × ℚ :=
  let fx := intrinsics 0 * (width : ℚ)
  let fy := intrinsics 1 * (height : ℚ)
  let cx := intrinsics 2 * (width : ℚ)
  let cy := intrinsics 3 * (height : ℚ)
  (x * fx / depth + cx, y * fy / depth + cy, depth)

/-- Componentwise difference of two 3-vectors. -/
def sub3 (u v : ℚ × ℚ × ℚ) : ℚ × ℚ × ℚ :=
  (u.1 - v.1, u.2.1 - v.2.1, u.2.2 - v.2.2)

/-- `np.cross` of two 3-vectors. -/
def cross3 (u v : ℚ × ℚ × ℚ) : ℚ × ℚ × ℚ :=
  (u.2.1 * v.2.2 - u.2.2 * v.2.1,
   u.2.2 * v.1 - u.1 * v.2.2,
   u.1 * v.2.1 - u.2.1 * v.1)

/-- `normalize` (primed because Mathlib already owns the plain name):
divide a vector by `abs(x) + abs(y) + abs(z)` (the L1 norm; in ℚ a
division by a zero length yields the zero vector, matching the
all-zero-input case where numpy produces NaNs that fail every later
comparison). -/
def normalize' (v : ℚ × ℚ × ℚ) : ℚ × ℚ × ℚ :=
  let length := |v.1| + |v.2.1| + |v.2.2|
  (v.1 / length, v.2.1 / length, v.2.2 / length)

/-- `calculate_normalmap_array`: for interior pixels (`1 ≤ x < width`,
`1 ≤ y < height`) the L1-normalized cross product of the finite-difference
edge vectors toward `(x-1, y)` and `(x, y-1)`; the added black border (and
anything outside the array) is the zero vector. -/
def calculate_normalmap_array (w h : ℕ) (pts : ℕ → ℕ → ℚ × ℚ × ℚ) :
    ℕ → ℕ → ℚ × ℚ × ℚ :=
  fun x y =>
    if 1 ≤ x ∧ x < w ∧ 1 ≤ y ∧ y < h then
      normalize' (cross3
        (sub3 (pts x y) (pts (x - 1) y))
        (sub3 (pts x y) (pts x (y - 1))))
    else (0, 0, 0)

/-- `convert_2d_to_3d_oriented`: per-pixel metric point `(-tx, ty, depth, 1)`
transformed by the device pose, components 0 and 1 divided by the absolute
homogeneous component, and the y axis negated after the divide. -/
def Depthmap.convert_2d_to_3d_oriented (dm : Depthmap) (should_smooth : Bool) :
    ℕ → ℕ → ℚ × ℚ × ℚ :=
  fun x y =>
    let depth := (if should_smooth then dm.depthmap_arr_smooth else dm.depthmap_arr) x y
    let tx := depth * ((x : ℚ) - dm.cx) / dm.fx
    let ty := depth * ((y : ℚ) - dm.cy) / dm.fy
    let o : ℕ → ℚ := fun i =>
      dm.device_pose_arr i 0 * (-tx) + dm.device_pose_arr i 1 * ty
        + dm.device_pose_arr i 2 * depth + dm.device_pose_arr i 3 * 1
    let wabs := |o 3|
    (o 0 / wabs, -(o 1 / wabs), o 2)

/-- `detect_floor`: invalid where the smoothed depth is zero, overwritten
by `MASK_FLOOR` wherever `|normal_y| > 0.5` and `point_y - floor < 0.1`. -/
def Depthmap.detect_floor (dm : Depthmap) (floor : ℚ) : ℕ → ℕ → ℤ :=
  let pts := dm.convert_2d_to_3d_oriented true
  let normal := calculate_normalmap_array dm.width dm.height pts
  fun x y =>
    if |(normal x y).2.1| > 1/2 ∧ (pts x y).2.1 - floor < 1/10 then MASK_FLOOR
    else if dm.depthmap_arr_smooth x y = 0 then MASK_INVALID
    else 0

/-- One `Segment` of `detect_objects`: `namedtuple('Segment', 'id aabb')`,
the bounding box being `(min_x, min_y, max_x, max_y)` (as raw pixel
coordinates, which numpy wrapping can make negative). -/
structure Segment where
  id : ℤ
  aabb : ℤ × ℤ × ℤ × ℤ
deriving DecidableEq, Repr

/-- One neighbour push of the flood fill: read the neighbour's depth with
numpy indexing (raising on out-of-range) and push the pixel when the depth
is positive and within `0.1` of the centre pixel's depth. -/
def tryPush (w h : ℕ) (depth : ℕ → ℕ → ℚ) (depth_center : ℚ)
    (stack : List (ℤ × ℤ)) (px py : ℤ) : Except String (List (ℤ × ℤ)) :=
  match npIndex w px, npIndex h py with
  | some a, some b =>
      let depth_dir := depth a b
      .ok (if depth_dir > 0 ∧ |depth_dir - depth_center| < 1/10
           then (px, py) :: stack else stack)
  | _, _ => .error "index out of bounds"

/-- The `while len(stack) > 0` loop of `detect_objects`, with explicit fuel
(the Python loop always terminates; `detect_objects` supplies more fuel
than any terminating run can use, and running out is an explicit error).
Pops the top pixel, reads its depth, pushes the four neighbours in the
order of `dirs` when the popped pixel is still unlabelled, grows the
bounding box, and labels the popped pixel with `current_id`. -/
def floodFill (w h : ℕ) (depth : ℕ → ℕ → ℚ) (current_id : ℤ) :
    ℕ → (ℕ → ℕ → ℤ) → List (ℤ × ℤ) → ℤ × ℤ × ℤ × ℤ →
    Except String ((ℕ → ℕ → ℤ) × (ℤ × ℤ × ℤ × ℤ))
  | 0, _, _, _ => .error "fuel exhausted"
  | _ + 1, mask, [], aabb => .ok (mask, aabb)
  | fuel + 1, mask, (px, py) :: rest, (a0, a1, a2, a3) =>
    match npIndex w px, npIndex h py with
    | some a, some b =>
      let depth_center := depth a b
      let stackE : Except String (List (ℤ × ℤ)) :=
        if mask a b = 0 then do
          let s1 ← tryPush w h depth depth_center rest (px - 1) py
          let s2 ← tryPush w h depth depth_center s1 (px + 1) py
          let s3 ← tryPush w h depth depth_center s2 px (py - 1)
          tryPush w h depth depth_center s3 px (py + 1)
        else .ok rest
      match stackE with
      | .error e => .error e
      | .ok stack' =>
          floodFill w h depth current_id fuel (updMask mask a b current_id)
            stack' (min px a0, min py a1, max px a2, max py a3)
    | _, _ => .error "index out of bounds"

/-- Fuel bound handed to `floodFill` by `detect_objects`: a fill pops at
most one seed plus four pushes per expanded pixel, and at most
`width * height` pixels can be expanded, so this is never exhausted on a
run the Python code completes. -/
def fillFuel (w h : ℕ) : ℕ := 5 * (w * h + 1)

/-- Row-major scan order of `detect_objects` (`x` outer, `y` inner). -/
def pixelList (w h : ℕ) : List (ℕ × ℕ) :=
  (List.range w).flatMap (fun x => (List.range h).map (fun y => (x, y)))

/-- The nested `for x / for y` loops of `detect_objects`: skip labelled
pixels, flood-fill from each unlabelled seed, accept the segment when the
larger bounding-box dimension exceeds `width / 4`, and decrement the id. -/
def scanLoop (dm : Depthmap) :
    List (ℕ × ℕ) → (ℕ → ℕ → ℤ) → List Segment → ℤ →
    Except String ((ℕ → ℕ → ℤ) × List Segment × ℤ)
  | [], mask, segments, current_id => .ok (mask, segments, current_id)
  | (x, y) :: rest, mask, segments, current_id =>
    if mask x y ≠ 0 then
      scanLoop dm rest mask segments current_id
    else
      match floodFill dm.width dm.height dm.depthmap_arr current_id
          (fillFuel dm.width dm.height) mask [((x : ℤ), (y : ℤ))]
          ((x : ℤ), (y : ℤ), (x : ℤ), (y : ℤ)) with
      | .error e => .error e
      | .ok (mask', a0, a1, a2, a3) =>
        let object_size_pixels : ℤ := max (a2 - a0) (a3 - a1)
        scanLoop dm rest mask'
          (if (object_size_pixels : ℚ) > (dm.width : ℚ) / 4
           then segments ++ [⟨current_id, (a0, a1, a2, a3)⟩] else segments)
          (current_id - 1)

/-- `detect_objects`: seed-fill segmentation starting from the floor mask;
returns the final mask and the accepted segments. -/
def Depthmap.detect_objects (dm : Depthmap) (floor : ℚ) :
    Except String ((ℕ → ℕ → ℤ) × List Segment) :=
  (scanLoop dm (pixelList dm.width dm.height) (dm.detect_floor floor) [] (-1)).map
    (fun r => (r.1, r.2.1))

/-- `sys.maxsize` on a 64-bit build. -/
def sysMaxsize : ℤ := 9223372036854775807

/-- The per-segment quantity of `segment_child`'s loop:
`a*a + b*b + c*c + d*d` for the bounding-box offsets `a, b, c, d` from the
image centre `(cw, ch)`. -/
def segDistance (cw ch : ℤ) (segment : Segment) : ℤ :=
  let a := segment.aabb.1 - cw
  let b := segment.aabb.2.1 - ch
  let c := segment.aabb.2.2.1 - cw
  let d := segment.aabb.2.2.2 - ch
  a * a + b * b + c * c + d * d

/-- The selection loop of `segment_child`: running `(closest, focus)` pair,
updated whenever a segment's `segDistance` is strictly smaller than the
best so far. -/
def selectFocus (cw ch : ℤ) : List Segment → ℤ × ℤ → ℤ × ℤ
  | [], st => st
  | segment :: rest, (closest, focus) =>
    let distance := segDistance cw ch segment
    if closest > distance then selectFocus cw ch rest (distance, segment.id)
    else selectFocus cw ch rest (closest, focus)

/-- `segment_child`: pick the accepted segment whose bounding-box corner
offsets from the image centre are smallest (initial `closest = sys.maxsize`,
initial `focus = -1`), then `np.where(mask == focus, MASK_CHILD, mask)`. -/
def Depthmap.segment_child (dm : Depthmap) (floor : ℚ) :
    Except String (ℕ → ℕ → ℤ) :=
  match dm.detect_objects floor with
  | .error e => .error e
  | .ok (mask, segments) =>
    let cw : ℤ := (dm.width / 2 : ℕ)
    let ch : ℤ := (dm.height / 2 : ℕ)
    let sel := selectFocus cw ch segments (sysMaxsize, -1)
    .ok (fun x y => if mask x y = sel.2 then MASK_CHILD else mask x y)

/-- Sorted insertion, ascending. -/
def insertSorted (q : ℚ) : List ℚ → List ℚ
  | [] => [q]
  | x :: xs => if q ≤ x then q :: x :: xs else x :: insertSorted q xs

/-- Ascending insertion sort (the value of `np.median` only depends on the
sorted multiset, so any ascending sort reproduces it). -/
def sortQ (l : List ℚ) : List ℚ := l.foldr insertSorted []

/-- `np.median` on a flat list: middle element for odd length, mean of the
two middle elements for even length.  numpy yields NaN on an empty input;
NaN is not a rational, so the empty case is mapped to `0` and no theorem
below relies on it. -/
def npMedian (l : List ℚ) : ℚ :=
  let s := sortQ l
  if s.length = 0 then 0
  else if s.length % 2 = 1 then s.getD (s.length / 2) 0
  else (s.getD (s.length / 2 - 1) 0 + s.getD (s.length / 2) 0) / 2

/-- `get_floor_level`: the median world-space y over all pixels whose
normal passes `|normal_y| > 0.5` (the mask built at the top of the Python
function is dead code and is not modelled).  Boolean indexing flattens the
`(width, height)` array in row-major order. -/
def Depthmap.get_floor_level (dm : Depthmap) : ℚ :=
  let pts := dm.convert_2d_to_3d_oriented true
  let normal := calculate_normalmap_array dm.width dm.height pts
  npMedian ((List.range dm.width).flatMap (fun x =>
    (List.range dm.height).filterMap (fun y =>
      if |(normal x y).2.1| > 1/2 then some (pts x y).2.1 else none)))

/-- The world-space y of every pixel `detect_floor dm floor` labels
`MASK_FLOOR`, in row-major order. -/
def floorYs (dm : Depthmap) (floor : ℚ) : List ℚ :=
  let pts := dm.convert_2d_to_3d_oriented true
  let mask := dm.detect_floor floor
  (List.range dm.width).flatMap (fun x =>
    (List.range dm.height).filterMap (fun y =>
      if mask x y = MASK_FLOOR then some (pts x y).2.1 else none))

/-- `_parse_depth`: border pixels (`tx < 1` or `ty < 1`, or at or beyond
the outer bound) decode to 0; other pixels decode the big-endian 16-bit
value at byte offset `(ty * width + tx) * 3`, scaled by `depth_scale`.
A read past the end of the buffer is an `IndexError` (`none`). -/
def Depthmap.parse_depth (dm : Depthmap) (data : List ℕ) (tx ty : ℕ) :
    Option ℚ :=
  if tx < 1 ∨ ty < 1 ∨ dm.width ≤ tx ∨ dm.height ≤ ty then some 0
  else do
    let b0 ← data.get? ((ty * dm.width + tx) * 3)
    let b1 ← data.get? ((ty * dm.width + tx) * 3 + 1)
    some (((b0 <<< 8) + b1 : ℕ) * dm.depth_scale)

/-- `_parse_depth_data`: decode every pixel of the `(width, height)` grid;
any failing pixel read is an `IndexError` for the whole decode. -/
def Depthmap.parse_depth_data (dm : Depthmap) (data : List ℕ) :
    Except String (ℕ → ℕ → ℚ) :=
  if ∀ x < dm.width, ∀ y < dm.height, (dm.parse_depth data x y).isSome then
    .ok (fun x y => (dm.parse_depth data x y).getD 0)
  else .error "index out of bounds"

/-- `_parse_confidence` / `_parse_confidence_data`: the third byte of every
pixel record divided by `max_confidence`; a read past the end of the
buffer is an `IndexError`. -/
def parse_confidence_data (w h : ℕ) (max_confidence : ℚ) (data : List ℕ) :
    Except String (ℕ → ℕ → ℚ) :=
  if ∀ x < w, ∀ y < h, (y * w + x) * 3 + 2 < data.length then
    .ok (fun x y => (data.getD ((y * w + x) * 3 + 2) 0 : ℚ) / max_confidence)
  else .error "index out of bounds"

/-- `Depthmap.__init__`: ingests either a raw byte buffer (`data`) or a
pre-built depth array, never both.  Mirrors the constructor's fallible
steps in source order: the `reshape(4, 4)` of the device pose (fails
unless 16 numbers are supplied), the `assert depthmap_arr is None or data
is None`, the `self._parse_depth_data(data) if data else depthmap_arr`
selection (Python truthiness: `None` and `b''` both falsy) whose `None`
result makes the subsequent smoothing call fail, and the confidence
parse. -/
def Depthmap.init (intrinsics : ℕ → ℕ → ℚ) (width height : ℕ)
    (data : Option (List ℕ)) (depthmap_arr : Option (ℕ → ℕ → ℚ))
    (depth_scale : ℚ) (max_confidence : ℚ) (device_pose : List ℚ) :
    Except String Depthmap :=
  if device_pose.length ≠ 16 then
    .error "cannot reshape device_pose into shape (4,4)"
  else if depthmap_arr.isSome ∧ data.isSome then
    .error "AssertionError"
  else
    let dm0 : Depthmap :=
      { width := width, height := height, intrinsics := intrinsics,
        depth_scale := depth_scale,
        device_pose_arr := fun i j => device_pose.getD (j * 4 + i) 0,
        depthmap_arr := fun _ _ => 0 }
    let truthy : Bool := match data with | some (_ :: _) => true | _ => false
    match (if truthy then (dm0.parse_depth_data (data.getD [])).map some
           else .ok depthmap_arr : Except String (Option (ℕ → ℕ → ℚ))) with
    | .error e => .error e
    | .ok none => .error "smoothen_depthmap_array of None"
    | .ok (some arr) =>
      match (if truthy then
               (parse_confidence_data width height max_confidence
                 (data.getD [])).map some
             else .ok none : Except String (Option (ℕ → ℕ → ℚ))) with
      | .error e => .error e
      | .ok _ => .ok { dm0 with depthmap_arr := arr }

/-- Build a `(width, height)` grid from a list of columns (outer index `x`,
inner index `y`); everything outside the lists is `0`. -/
def gridOfList (l : List (List ℚ)) : ℕ → ℕ → ℚ :=
  fun x y => (l.getD x []).getD y 0

/-- The identity device pose (`IDENTITY_MATRIX_4D`, reshaped/transposed). -/
def idPose : ℕ → ℕ → ℚ := fun i j => if i = j then 1 else 0

/-- Calibration used by all concrete examples: both sensor rows
`[1, 1, 0.5, 0.5]`, so `fx = width`, `fy = height`, `cx = width / 2`,
`cy = height / 2`. -/
def testIntr : ℕ → ℕ → ℚ := fun _ j => if j ≤ 1 then 1 else 1/2

/-- 4×4 capture whose only seedable pixel sits in the bottom-right corner:
depth 1 on the 2×2 corner block, 0 elsewhere. -/
def dm4 : Depthmap :=
  { width := 4, height := 4, intrinsics := testIntr, depth_scale := 1/1000,
    device_pose_arr := idPose,
    depthmap_arr := gridOfList
      [[0, 0, 0, 0],
       [0, 0, 0, 0],
       [0, 0, 1, 1],
       [0, 0, 1, 1]] }

/-- 5×5 capture with an isolated valid pixel at `(2, 2)` (depth 1) whose
four neighbours carry the far depth 2: the flood fill from `(2, 2)` pushes
nothing, so its singleton segment is rejected by the size test. -/
def dm5 : Depthmap :=
  { width := 5, height := 5, intrinsics := testIntr, depth_scale := 1/1000,
    device_pose_arr := idPose,
    depthmap_arr := gridOfList
      [[0, 0, 0, 0, 0],
       [0, 0, 2, 0, 0],
       [0, 2, 1, 2, 0],
       [0, 0, 2, 0, 0],
       [0, 0, 0, 0, 0]] }

/-- 7×7 capture: uniform depth 1 on the 5×5 interior block, 0 on the
border ring.  With floor estimate 10, `detect_floor` marks `(3, 2)` and
`(4, 2)` as floor, and the flood fill seeded at `(2, 2)` engulfs them. -/
def dm7 : Depthmap :=
  { width := 7, height := 7, intrinsics := testIntr, depth_scale := 1/1000,
    device_pose_arr := idPose,
    depthmap_arr := gridOfList
      [[0, 0, 0, 0, 0, 0, 0],
       [0, 1, 1, 1, 1, 1, 0],
       [0, 1, 1, 1, 1, 1, 0],
       [0, 1, 1, 1, 1, 1, 0],
       [0, 1, 1, 1, 1, 1, 0],
       [0, 1, 1, 1, 1, 1, 0],
       [0, 0, 0, 0, 0, 0, 0]] }

/-- 7×9 capture with two horizontal depth-1 slabs (rows 1–3 and 5–7 of
columns 1–5).  The lower slab's floor-test pixels sit at world y `5/18`
(failing the height test against floor estimate 0), the upper slab's at
`-1/6` (passing it). -/
def dmB : Depthmap :=
  { width := 7, height := 9, intrinsics := testIntr, depth_scale := 1/1000,
    device_pose_arr := idPose,
    depthmap_arr := gridOfList
      [[0, 0, 0, 0, 0, 0, 0, 0, 0],
       [0, 1, 1, 1, 0, 1, 1, 1, 0],
       [0, 1, 1, 1, 0, 1, 1, 1, 0],
       [0, 1, 1, 1, 0, 1, 1, 1, 0],
       [0, 1, 1, 1, 0, 1, 1, 1, 0],
       [0, 1, 1, 1, 0, 1, 1, 1, 0],
       [0, 0, 0, 0, 0, 0, 0, 0, 0]] }

/-- Oring `b` below `a` shifted past all of `b`'s bits is addition. -/
lemma mul_pow_lor_eq_add : ∀ (n : ℕ) (a b : ℕ), b < 2 ^ n →
    (a * 2 ^ n) ||| b = a * 2 ^ n + b := by
  intro n
  induction n with
  | zero =>
    intro a b hb
    have hb0 : b = 0 := Nat.lt_one_iff.mp hb
    subst hb0
    simp
  | succ n ih =>
    intro a b hb
    have hd : b.div2 < 2 ^ n := by
      rw [Nat.div2_val]
      rw [pow_succ] at hb
      omega
    have h1 : a * 2 ^ (n + 1) = Nat.bit false (a * 2 ^ n) := by
      rw [Nat.bit_val]
      rw [pow_succ]
      ring_nf
      simp
    have h2 : Nat.bit b.bodd b.div2 = b := Nat.bit_decomp b
    calc (a * 2 ^ (n + 1)) ||| b
        = Nat.bit false (a * 2 ^ n) ||| Nat.bit b.bodd b.div2 := by rw [h1, h2]
      _ = Nat.bit (false || b.bodd) ((a * 2 ^ n) ||| b.div2) := Nat.lor_bit _ _ _ _
      _ = Nat.bit b.bodd (a * 2 ^ n + b.div2) := by rw [Bool.false_or, ih a b.div2 hd]
      _ = a * 2 ^ (n + 1) + b := by
          have hb' : 2 * b.div2 + b.bodd.toNat = b := by
            rw [← Nat.bit_val]
            exact Nat.bit_decomp b
          have hp : a * 2 ^ (n + 1) = 2 * (a * 2 ^ n) := by ring
          rw [Nat.bit_val, hp]
          omega

/-- Specialisation to the byte layout of `_parse_depth`. -/
lemma shiftLeft_eight_lor (a b : ℕ) (hb : b < 256) :
    (a <<< 8) ||| b = (a <<< 8) + b := by
  rw [Nat.shiftLeft_eq]
  exact mul_pow_lor_eq_add 8 a b hb

/-- A nonzero L1-normalized vector has L1 norm exactly one. -/
lemma normalize_L1 (v : ℚ × ℚ × ℚ) (hv : normalize' v ≠ (0, 0, 0)) :
    |(normalize' v).1| + |(normalize' v).2.1| + |(normalize' v).2.2| = 1 := by
  unfold normalize' at *
  set L := |v.1| + |v.2.1| + |v.2.2| with hL
  have hLnn : 0 ≤ L := by positivity
  have hLne : L ≠ 0 := by
    intro h0
    apply hv
    have h1 : v.1 = 0 := by
      have := abs_nonneg v.1
      have := abs_nonneg v.2.1
      have := abs_nonneg v.2.2
      have : |v.1| = 0 := by rw [hL] at h0; linarith
      exact abs_eq_zero.mp this
    have h2 : v.2.1 = 0 := by
      have := abs_nonneg v.1
      have := abs_nonneg v.2.1
      have := abs_nonneg v.2.2
      have : |v.2.1| = 0 := by rw [hL] at h0; linarith
      exact abs_eq_zero.mp this
    have h3 : v.2.2 = 0 := by
      have := abs_nonneg v.1
      have := abs_nonneg v.2.1
      have := abs_nonneg v.2.2
      have : |v.2.2| = 0 := by rw [hL] at h0; linarith
      exact abs_eq_zero.mp this
    simp [h1, h2, h3]
  have hLpos : 0 < L := lt_of_le_of_ne hLnn (Ne.symm hLne)
  have habs : |L| = L := abs_of_pos hLpos
  simp only
  rw [abs_div, abs_div, abs_div, habs]
  rw [div_add_div_same, div_add_div_same, ← hL]
  exact div_self hLne

/-- C7: a pixel that is zero in the input, or has an in-bounds 4-connected
neighbour that is zero in the input, is exactly zero in the smoothed array
returned by `smoothen_depthmap_array`; in particular an input zero never
becomes nonzero. -/
theorem C7_smoothing_zeroes (w h : ℕ) (img : ℕ → ℕ → ℚ) (x y : ℕ)
    (hx : x < w) (hy : y < h)
    (hz : img x y = 0
      ∨ (1 ≤ x ∧ img (x - 1) y = 0)
      ∨ (x + 1 < w ∧ img (x + 1) y = 0)
      ∨ (1 ≤ y ∧ img x (y - 1) = 0)
      ∨ (y + 1 < h ∧ img x (y + 1) = 0)) :
    smoothen_depthmap_array w h img x y = 0 := by
  unfold smoothen_depthmap_array
  rw [if_pos]
  unfold smooth_center smooth_right smooth_left smooth_up smooth_down
  exact hz

/-- Witness for C7 at a concrete input: the pixel `(1, 1)` of a 2×2 grid
with a zero left neighbour smooths to zero. -/
theorem C7_smoothing_zeroes_witness :
    smoothen_depthmap_array 2 2 (gridOfList [[0, 0], [0, 1]]) 1 1 = 0 :=
  C7_smoothing_zeroes 2 2 (gridOfList [[0, 0], [0, 1]]) 1 1 (by decide)
    (by decide) (Or.inr (Or.inl (by refine ⟨le_refl 1, ?_⟩; decide)))

/-- C8: `convert_3d_to_2d` applied to the output of `convert_2d_to_3d`
recovers the pixel coordinates and the depth exactly, for nonzero depth
and well-defined focal scalings. -/
theorem C8_projection_round_trip (dm : Depthmap) (sensor : ℕ) (x y depth : ℚ)
    (hfx : dm.intrinsics sensor 0 * dm.width ≠ 0)
    (hfy : dm.intrinsics sensor 1 * dm.height ≠ 0)
    (hd : depth ≠ 0) :
    convert_3d_to_2d (fun i => dm.intrinsics sensor i)
      (dm.convert_2d_to_3d sensor x y depth).1
      (dm.convert_2d_to_3d sensor x y depth).2.1
      (dm.convert_2d_to_3d sensor x y depth).2.2
      dm.width dm.height = (x, y, depth) := by
  unfold Depthmap.convert_2d_to_3d convert_3d_to_2d
  simp only
  refine Prod.ext ?_ (Prod.ext ?_ rfl)
  · field_simp
  · field_simp

/-- Witness for C8 at a concrete input: pixel `(3, 2)` at depth 5 of the
7×7 example round-trips. -/
theorem C8_projection_round_trip_witness :
    convert_3d_to_2d (fun i => dm7.intrinsics 1 i)
      (dm7.convert_2d_to_3d 1 3 2 5).1
      (dm7.convert_2d_to_3d 1 3 2 5).2.1
      (dm7.convert_2d_to_3d 1 3 2 5).2.2
      dm7.width dm7.height = (3, 2, 5) :=
  C8_projection_round_trip dm7 1 3 2 5 (by with_unfolding_all decide)
    (by with_unfolding_all decide) (by with_unfolding_all decide)

/-- C9: every nonzero normal produced by `calculate_normalmap_array` has
L1 norm exactly one, and the border pixels with `x = 0` or `y = 0` get the
zero normal. -/
theorem C9_normal_L1_and_border (w h : ℕ) (pts : ℕ → ℕ → ℚ × ℚ × ℚ) (x y : ℕ) :
    ((x = 0 ∨ y = 0) → calculate_normalmap_array w h pts x y = (0, 0, 0)) ∧
    (calculate_normalmap_array w h pts x y ≠ (0, 0, 0) →
      |(calculate_normalmap_array w h pts x y).1|
        + |(calculate_normalmap_array w h pts x y).2.1|
        + |(calculate_normalmap_array w h pts x y).2.2| = 1) := by
  constructor
  · intro hxy
    unfold calculate_normalmap_array
    rw [if_neg]
    rcases hxy with hx | hy
    · subst hx; omega
    · subst hy; omega
  · intro hne
    unfold calculate_normalmap_array at *
    by_cases hin : 1 ≤ x ∧ x < w ∧ 1 ≤ y ∧ y < h
    · rw [if_pos hin] at hne ⊢
      exact normalize_L1 _ hne
    · rw [if_neg hin] at hne
      exact absurd rfl hne

/-- Witness for C9 at a concrete input: on the plane `pts x y = (x, y, 0)`
the interior normal at `(1, 1)` is `(0, 0, 1)`, whose L1 norm is 1. -/
theorem C9_normal_L1_and_border_witness :
    |(calculate_normalmap_array 2 2 (fun x y => ((x : ℚ), (y : ℚ), 0)) 1 1).1|
      + |(calculate_normalmap_array 2 2 (fun x y => ((x : ℚ), (y : ℚ), 0)) 1 1).2.1|
      + |(calculate_normalmap_array 2 2 (fun x y => ((x : ℚ), (y : ℚ), 0)) 1 1).2.2| = 1 :=
  (C9_normal_L1_and_border 2 2 (fun x y => ((x : ℚ), (y : ℚ), 0)) 1 1).2
    (by with_unfolding_all decide)

/-- Every in-range pixel offset of the 3-byte-per-pixel layout stays below
the buffer length when the buffer holds at least `3 * width * height`
bytes. -/
lemma pixel_offset_lt (w h a b len : ℕ) (ha : a < w) (hb : b < h)
    (hlen : 3 * w * h ≤ len) : (b * w + a) * 3 + 2 < len := by
  have hlen' : 3 * (w * h) ≤ len := by rw [← Nat.mul_assoc]; exact hlen
  have hp : b * w + a < w * h := by
    calc b * w + a < b * w + w := by omega
      _ = (b + 1) * w := by ring
      _ ≤ h * w := Nat.mul_le_mul_right w (by omega)
      _ = w * h := Nat.mul_comm h w
  omega

/-- A border pixel (`tx < 1` or `ty < 1`) decodes to `some 0`. -/
lemma parse_depth_border (dm : Depthmap) (data : List ℕ) (tx ty : ℕ)
    (hb : tx < 1 ∨ ty < 1) : dm.parse_depth data tx ty = some 0 := by
  unfold Depthmap.parse_depth
  rw [if_pos]
  rcases hb with hb | hb
  · exact Or.inl hb
  · exact Or.inr (Or.inl hb)

/-- An interior, in-range pixel decodes to the scaled big-endian 16-bit
value at its 3-byte offset. -/
lemma parse_depth_interior (dm : Depthmap) (data : List ℕ) (x y : ℕ)
    (hx1 : 1 ≤ x) (hy1 : 1 ≤ y) (hxw : x < dm.width) (hyh : y < dm.height)
    (h1 : (y * dm.width + x) * 3 + 1 < data.length) :
    dm.parse_depth data x y
      = some ((((data.getD ((y * dm.width + x) * 3) 0) <<< 8)
          + data.getD ((y * dm.width + x) * 3 + 1) 0 : ℕ) * dm.depth_scale) := by
  have h0 : (y * dm.width + x) * 3 < data.length := by omega
  unfold Depthmap.parse_depth
  rw [if_neg (by omega)]
  rw [List.get?_eq_get h0, List.get?_eq_get h1]
  simp [List.getD_eq_getElem data 0 h0, List.getD_eq_getElem data 0 h1]
  left
  rw [List.getElem?_eq_getElem h0, List.getElem?_eq_getElem h1]
  simp

/-- A non-border, in-range pixel always decodes to `some` value. -/
lemma parse_depth_isSome (dm : Depthmap) (data : List ℕ) (tx ty : ℕ)
    (hlen : 3 * dm.width * dm.height ≤ data.length)
    (htx : tx < dm.width) (hty : ty < dm.height) :
    (dm.parse_depth data tx ty).isSome := by
  by_cases hborder : tx < 1 ∨ ty < 1
  · rw [parse_depth_border dm data tx ty hborder]; rfl
  · have hidx := pixel_offset_lt dm.width dm.height tx ty data.length htx hty hlen
    rw [parse_depth_interior dm data tx ty (by omega) (by omega) htx hty (by omega)]
    rfl

/-- `getD` at an in-range index is a member of the list. -/
lemma getD_mem_of_lt (data : List ℕ) {i : ℕ} (h : i < data.length) :
    data.getD i 0 ∈ data := by
  rw [List.getD_eq_getElem data 0 h]
  exact List.getElem_mem h

/-- C6: with a sufficiently long byte buffer, the decoded depth array
exists and satisfies the per-pixel formula
`((data[(y*width+x)*3] << 8) | data[(y*width+x)*3+1]) * depth_scale` at
every pixel with `x ≥ 1`, `y ≥ 1`, `x < width`, `y < height`, and decodes
to exactly 0 at every pixel with `x < 1` or `y < 1`. -/
theorem C6_depth_decoding (dm : Depthmap) (data : List ℕ) (x y : ℕ)
    (hlen : 3 * dm.width * dm.height ≤ data.length)
    (hbytes : ∀ b ∈ data, b < 256) :
    ∃ arr, dm.parse_depth_data data = .ok arr ∧
      (1 ≤ x → 1 ≤ y → x < dm.width → y < dm.height →
        arr x y = ((((data.getD ((y * dm.width + x) * 3) 0) <<< 8)
          ||| data.getD ((y * dm.width + x) * 3 + 1) 0 : ℕ) : ℚ)
          * dm.depth_scale) ∧
      ((x < 1 ∨ y < 1) → arr x y = 0) := by
  have hsome : ∀ a < dm.width, ∀ b < dm.height, (dm.parse_depth data a b).isSome :=
    fun a ha b hb => parse_depth_isSome dm data a b hlen ha hb
  refine ⟨fun a b => (dm.parse_depth data a b).getD 0, ?_, ?_, ?_⟩
  · unfold Depthmap.parse_depth_data
    rw [if_pos hsome]
  · intro hx1 hy1 hxw hyh
    have hidx := pixel_offset_lt dm.width dm.height x y data.length hxw hyh hlen
    show (dm.parse_depth data x y).getD 0 = _
    rw [parse_depth_interior dm data x y hx1 hy1 hxw hyh (by omega)]
    rw [Option.getD_some]
    rw [shiftLeft_eight_lor _ _ (hbytes _ (getD_mem_of_lt data (by omega)))]
  · intro hborder
    show (dm.parse_depth data x y).getD 0 = 0
    rw [parse_depth_border dm data x y hborder]
    rfl

/-- 2×2 Depthmap shell used to exercise the byte decoder. -/
def dmC6 : Depthmap :=
  { width := 2, height := 2, intrinsics := testIntr, depth_scale := 3,
    device_pose_arr := idPose, depthmap_arr := fun _ _ => 0 }

/-- 12-byte buffer for `dmC6`: pixel `(1, 1)` carries bytes `1, 2, 9`. -/
def dataC6 : List ℕ := [0, 0, 0, 0, 0, 0, 0, 0, 0, 1, 2, 9]

/-- Witness for C6 at a concrete input: the 2×2 buffer decodes, pixel
`(1, 1)` to `((1 << 8) | 2) * 3` and the border row/column to 0. -/
theorem C6_depth_decoding_witness :
    ∃ arr, dmC6.parse_depth_data dataC6 = .ok arr ∧
      (1 ≤ 1 → 1 ≤ 1 → 1 < dmC6.width → 1 < dmC6.height →
        arr 1 1 = ((((dataC6.getD ((1 * dmC6.width + 1) * 3) 0) <<< 8)
          ||| dataC6.getD ((1 * dmC6.width + 1) * 3 + 1) 0 : ℕ) : ℚ)
          * dmC6.depth_scale) ∧
      ((1 < 1 ∨ 1 < 1) → arr 1 1 = 0) :=
  C6_depth_decoding dmC6 dataC6 1 1 (by decide) (by decide)

/-- C10: supplying both depth sources to the constructor is an error,
supplying neither is an error, and a successfully constructed `Depthmap`
always came from exactly one of the two sources. -/
theorem C10_construction_contract (intr : ℕ → ℕ → ℚ) (w h : ℕ)
    (scale conf : ℚ) (pose : List ℚ) (d : List ℕ) (arr : ℕ → ℕ → ℚ)
    (data : Option (List ℕ)) (depthmap_arr : Option (ℕ → ℕ → ℚ))
    (dm : Depthmap) :
    (∃ e, Depthmap.init intr w h (some d) (some arr) scale conf pose = .error e) ∧
    (∃ e, Depthmap.init intr w h none none scale conf pose = .error e) ∧
    (Depthmap.init intr w h data depthmap_arr scale conf pose = .ok dm →
      (data ≠ none ∧ depthmap_arr = none) ∨
      (data = none ∧ depthmap_arr ≠ none)) := by
  refine ⟨?_, ?_, ?_⟩
  · by_cases hp : pose.length = 16
    · exact ⟨"AssertionError", by simp [Depthmap.init, hp]⟩
    · exact ⟨"cannot reshape device_pose into shape (4,4)",
        by simp [Depthmap.init, hp]⟩
  · by_cases hp : pose.length = 16
    · exact ⟨"smoothen_depthmap_array of None", by simp [Depthmap.init, hp]⟩
    · exact ⟨"cannot reshape device_pose into shape (4,4)",
        by simp [Depthmap.init, hp]⟩
  · intro hok
    unfold Depthmap.init at hok
    by_cases hp : pose.length = 16
    · rw [if_neg (by omega)] at hok
      cases data with
      | some l =>
        left
        refine ⟨by simp, ?_⟩
        by_cases harr : depthmap_arr = none
        · exact harr
        · exfalso
          rw [if_pos ?_] at hok
          · exact Except.noConfusion hok
          · constructor
            · exact Option.ne_none_iff_isSome.mp harr
            · rfl
      | none =>
        right
        refine ⟨rfl, ?_⟩
        by_cases harr : depthmap_arr = none
        · exfalso
          rw [if_neg (by simp)] at hok
          rw [harr] at hok
          simp at hok
        · exact harr
    · rw [if_pos (by omega)] at hok
      exact Except.noConfusion hok

/-- Device pose used by the construction witness: 16 zeros (pose content
is irrelevant to the contract). -/
def poseW : List ℚ := List.replicate 16 0

/-- Pre-built depth array used by the construction witness. -/
def arrW : ℕ → ℕ → ℚ := fun _ _ => 1

/-- The `Depthmap` that `Depthmap.init` returns for the witness input. -/
def dmC10 : Depthmap :=
  { width := 2, height := 2, intrinsics := testIntr, depth_scale := 1,
    device_pose_arr := fun i j => poseW.getD (j * 4 + i) 0,
    depthmap_arr := arrW }

/-- Witness for C10 at a concrete input: a construction from an array and
no byte buffer succeeds, and the exactly-one-source disjunction holds. -/
theorem C10_construction_contract_witness :
    ((none : Option (List ℕ)) ≠ none ∧ (some arrW) = none) ∨
    ((none : Option (List ℕ)) = none ∧ (some arrW) ≠ none) :=
  (C10_construction_contract testIntr 2 2 1 7 poseW [] arrW none (some arrW)
    dmC10).2.2 (by with_unfolding_all rfl)

/-- `flatMap` only depends on the function's values on the list. -/
lemma flatMap_congr_mem {α β : Type} {l : List α} {f g : α → List β}
    (h : ∀ a ∈ l, f a = g a) : l.flatMap f = l.flatMap g := by
  induction l with
  | nil => rfl
  | cons a t ih =>
    simp only [List.flatMap_cons]
    rw [h a (by simp), ih (fun b hb => h b (by simp [hb]))]

/-- `filterMap` only depends on the function's values on the list. -/
lemma filterMap_congr_mem {α β : Type} {l : List α} {f g : α → Option β}
    (h : ∀ a ∈ l, f a = g a) : l.filterMap f = l.filterMap g := by
  induction l with
  | nil => rfl
  | cons a t ih =>
    simp only [List.filterMap_cons]
    rw [h a (by simp), ih (fun b hb => h b (by simp [hb]))]

set_option maxHeartbeats 1000000 in
set_option maxRecDepth 100000 in
/-- C2 counterexample: on `dmB`, `get_floor_level` is `1/18`, but the
median of the world y over the pixels that pass the full floor test of
`detect_floor` with floor estimate 0 is `-1/6`: the claim that
`get_floor_level` selects exactly those pixels is false on this input. -/
theorem C2_counterexample :
    dmB.get_floor_level ≠ npMedian (floorYs dmB 0) := by
  with_unfolding_all decide

/-- C2 amended: `get_floor_level` applies only the normal-orientation half
(`|normal_y| > 0.5`) of the floor test and omits the height test; its
result coincides with the median world y of `detect_floor`'s FLOOR pixels
exactly on inputs where every `|normal_y| > 0.5` pixel also passes the
height test against the floor estimate. -/
theorem C2_floor_level_median (dm : Depthmap) (floor : ℚ)
    (hc : ∀ x < dm.width, ∀ y < dm.height,
      |(calculate_normalmap_array dm.width dm.height
          (dm.convert_2d_to_3d_oriented true) x y).2.1| > 1/2 →
      (dm.convert_2d_to_3d_oriented true x y).2.1 - floor < 1/10) :
    dm.get_floor_level = npMedian (floorYs dm floor) := by
  unfold Depthmap.get_floor_level floorYs
  simp only
  congr 1
  apply flatMap_congr_mem
  intro x hx
  apply filterMap_congr_mem
  intro y hy
  rw [List.mem_range] at hx hy
  by_cases hcond : |(calculate_normalmap_array dm.width dm.height
      (dm.convert_2d_to_3d_oriented true) x y).2.1| > 1/2
  · rw [if_pos hcond, if_pos]
    unfold Depthmap.detect_floor
    rw [if_pos ⟨hcond, hc x hx y hy hcond⟩]
  · rw [if_neg hcond, if_neg]
    unfold Depthmap.detect_floor
    rw [if_neg (fun hand => hcond hand.1)]
    split
    · decide
    · decide

set_option maxHeartbeats 1000000 in
set_option maxRecDepth 100000 in
/-- Witness for C2's amended statement at a concrete input: on `dm7` with
floor estimate 10 every `|normal_y| > 0.5` pixel passes the height test,
and `get_floor_level` equals the floor-pixel median `3/14`. -/
theorem C2_floor_level_median_witness :
    dm7.get_floor_level = npMedian (floorYs dm7 10) :=
  C2_floor_level_median dm7 10 (by with_unfolding_all decide)

/-- Modelled from the claim's wording for comparison with the code: the
summed squared pixel distance of all four bounding-box corners to the
image centre `(cw, ch)`. -/
def cornersSqDistSum (cw ch : ℤ) (segment : Segment) : ℤ :=
  let x0 := segment.aabb.1
  let y0 := segment.aabb.2.1
  let x1 := segment.aabb.2.2.1
  let y1 := segment.aabb.2.2.2
  ((x0 - cw) * (x0 - cw) + (y0 - ch) * (y0 - ch))
    + ((x0 - cw) * (x0 - cw) + (y1 - ch) * (y1 - ch))
    + ((x1 - cw) * (x1 - cw) + (y0 - ch) * (y0 - ch))
    + ((x1 - cw) * (x1 - cw) + (y1 - ch) * (y1 - ch))

/-- The code's per-segment quantity is half the summed corner distance, so
both orders agree. -/
lemma cornersSqDistSum_eq_two_mul (cw ch : ℤ) (s : Segment) :
    cornersSqDistSum cw ch s = 2 * segDistance cw ch s := by
  unfold cornersSqDistSum segDistance
  ring

/-- If no segment beats the running best, the selection loop returns its
accumulator unchanged. -/
lemma selectFocus_stay (cw ch : ℤ) : ∀ (l : List Segment) (c f : ℤ),
    (∀ s ∈ l, ¬ segDistance cw ch s < c) →
    selectFocus cw ch l (c, f) = (c, f) := by
  intro l
  induction l with
  | nil => intro c f _; rfl
  | cons a t ih =>
    intro c f h
    simp only [selectFocus]
    rw [if_neg (h a (by simp))]
    exact ih c f (fun s hs => h s (by simp [hs]))

/-- The selection loop finds the first strict minimiser: whenever some
segment beats the initial `closest`, the result is the distance and id of
a segment `s` splitting the list as `l₁ ++ s :: l₂` with every earlier
segment strictly worse and every later one no better. -/
lemma selectFocus_found (cw ch : ℤ) : ∀ (l : List Segment) (c f : ℤ),
    (∃ t ∈ l, segDistance cw ch t < c) →
    ∃ l₁ s l₂, l = l₁ ++ s :: l₂ ∧ segDistance cw ch s < c ∧
      (∀ t ∈ l₁, segDistance cw ch s < segDistance cw ch t) ∧
      (∀ t ∈ l₂, segDistance cw ch s ≤ segDistance cw ch t) ∧
      selectFocus cw ch l (c, f) = (segDistance cw ch s, s.id) := by
  intro l
  induction l with
  | nil =>
    rintro c f ⟨t, ht, _⟩
    exact absurd ht (List.not_mem_nil t)
  | cons a rest ih =>
    intro c f hex
    by_cases ha : segDistance cw ch a < c
    · by_cases hrest : ∃ t ∈ rest, segDistance cw ch t < segDistance cw ch a
      · obtain ⟨l₁, s, l₂, heq, hlt, hbefore, hafter, hrun⟩ :=
          ih (segDistance cw ch a) a.id hrest
        refine ⟨a :: l₁, s, l₂, by rw [heq]; rfl, lt_trans hlt ha, ?_, hafter, ?_⟩
        · intro t ht
          rcases List.mem_cons.mp ht with rfl | ht'
          · exact hlt
          · exact hbefore t ht'
        · simp only [selectFocus]
          rw [if_pos ha]
          exact hrun
      · push_neg at hrest
        refine ⟨[], a, rest, rfl, ha, by simp, hrest, ?_⟩
        simp only [selectFocus]
        rw [if_pos ha]
        exact selectFocus_stay cw ch rest _ _
          (fun s hs => not_lt.mpr (hrest s hs))
    · obtain ⟨t0, ht0, ht0lt⟩ := hex
      have ht0rest : t0 ∈ rest := by
        rcases List.mem_cons.mp ht0 with rfl | h'
        · exact absurd ht0lt ha
        · exact h'
      obtain ⟨l₁, s, l₂, heq, hlt, hbefore, hafter, hrun⟩ :=
        ih c f ⟨t0, ht0rest, ht0lt⟩
      refine ⟨a :: l₁, s, l₂, by rw [heq]; rfl, hlt, ?_, hafter, ?_⟩
      · intro t ht
        rcases List.mem_cons.mp ht with rfl | ht'
        · exact lt_of_lt_of_le hlt (not_lt.mp ha)
        · exact hbefore t ht'
      · simp only [selectFocus]
        rw [if_neg ha]
        exact hrun

/-- C4: when `detect_objects` accepts at least one segment (all of
realistic size, i.e. with the loop quantity below `sys.maxsize`),
`segment_child` relabels to `MASK_CHILD` exactly the pixels of the
accepted segment minimising the summed squared corner distance to the
image centre, the first such segment in discovery order on ties. -/
theorem C4_segment_child_selection (dm : Depthmap) (floor : ℚ)
    (segs : List Segment)
    (hdet : (dm.detect_objects floor).map Prod.snd = .ok segs)
    (hne : segs ≠ [])
    (hbound : ∀ s ∈ segs,
      segDistance ((dm.width / 2 : ℕ) : ℤ) ((dm.height / 2 : ℕ) : ℤ) s
        < sysMaxsize) :
    ∃ l₁ s l₂, segs = l₁ ++ s :: l₂ ∧
      (∀ t ∈ segs,
        cornersSqDistSum ((dm.width / 2 : ℕ) : ℤ) ((dm.height / 2 : ℕ) : ℤ) s
          ≤ cornersSqDistSum ((dm.width / 2 : ℕ) : ℤ) ((dm.height / 2 : ℕ) : ℤ) t) ∧
      (∀ t ∈ l₁,
        cornersSqDistSum ((dm.width / 2 : ℕ) : ℤ) ((dm.height / 2 : ℕ) : ℤ) s
          < cornersSqDistSum ((dm.width / 2 : ℕ) : ℤ) ((dm.height / 2 : ℕ) : ℤ) t) ∧
      dm.segment_child floor = (dm.detect_objects floor).map
        (fun r => fun x y => if r.1 x y = s.id then MASK_CHILD else r.1 x y) := by
  set cw : ℤ := ((dm.width / 2 : ℕ) : ℤ)
  set ch : ℤ := ((dm.height / 2 : ℕ) : ℤ)
  match hdo : dm.detect_objects floor with
  | .error e => rw [hdo] at hdet; exact absurd hdet (by simp [Except.map])
  | .ok (mask, segs') =>
    rw [hdo] at hdet
    simp only [Except.map] at hdet
    have hsegs : segs' = segs := by
      have := hdet
      injection this
    subst hsegs
    have hfirst : ∃ t ∈ segs', segDistance cw ch t < sysMaxsize := by
      match segs', hne with
      | t :: rest, _ => exact ⟨t, by simp, hbound t (by simp)⟩
    obtain ⟨l₁, s, l₂, heq, _, hbefore, hafter, hrun⟩ :=
      selectFocus_found cw ch segs' sysMaxsize (-1) hfirst
    refine ⟨l₁, s, l₂, heq, ?_, ?_, ?_⟩
    · intro t ht
      rw [cornersSqDistSum_eq_two_mul, cornersSqDistSum_eq_two_mul]
      have : segDistance cw ch s ≤ segDistance cw ch t := by
        rw [heq] at ht
        rcases List.mem_append.mp ht with ht1 | ht2
        · exact le_of_lt (hbefore t ht1)
        · rcases List.mem_cons.mp ht2 with rfl | ht3
          · exact le_refl _
          · exact hafter t ht3
      omega
    · intro t ht
      rw [cornersSqDistSum_eq_two_mul, cornersSqDistSum_eq_two_mul]
      have := hbefore t ht
      omega
    · unfold Depthmap.segment_child
      rw [hdo]
      simp only [Except.map]
      rw [hrun]

set_option maxHeartbeats 1000000 in
set_option maxRecDepth 100000 in
/-- Witness for C4 at a concrete input: on `dm7` with floor estimate 10
the single accepted segment (id -1, box `(1,1,5,5)`) is selected and its
pixels are relabelled to `MASK_CHILD`. -/
theorem C4_segment_child_selection_witness :
    ∃ l₁ s l₂, ([⟨-1, (1, 1, 5, 5)⟩] : List Segment) = l₁ ++ s :: l₂ ∧
      (∀ t ∈ ([⟨-1, (1, 1, 5, 5)⟩] : List Segment),
        cornersSqDistSum ((dm7.width / 2 : ℕ) : ℤ) ((dm7.height / 2 : ℕ) : ℤ) s
          ≤ cornersSqDistSum ((dm7.width / 2 : ℕ) : ℤ) ((dm7.height / 2 : ℕ) : ℤ) t) ∧
      (∀ t ∈ l₁,
        cornersSqDistSum ((dm7.width / 2 : ℕ) : ℤ) ((dm7.height / 2 : ℕ) : ℤ) s
          < cornersSqDistSum ((dm7.width / 2 : ℕ) : ℤ) ((dm7.height / 2 : ℕ) : ℤ) t) ∧
      dm7.segment_child 10 = (dm7.detect_objects 10).map
        (fun r => fun x y => if r.1 x y = s.id then MASK_CHILD else r.1 x y) :=
  C4_segment_child_selection dm7 10 [⟨-1, (1, 1, 5, 5)⟩]
    (by with_unfolding_all decide) (by decide) (by with_unfolding_all decide)

set_option maxHeartbeats 1000000 in
set_option maxRecDepth 100000 in
/-- C3 (code bug): on `dm5` with floor estimate 0, `detect_objects`
accepts zero segments, the mask still carries the rejected segment id `-1`
at pixel `(2, 2)`, and `segment_child` relabels that pixel to `MASK_CHILD`
anyway: the "no segment" sentinel `focus = -1` collides with the first
segment id, so the mask is not returned unchanged. -/
theorem C3_focus_sentinel_bug :
    ((dm5.detect_objects 0).map Prod.snd) = .ok [] ∧
    ((dm5.detect_objects 0).map (fun r => r.1 2 2)) = .ok (-1) ∧
    ((dm5.segment_child 0).map (fun m => m 2 2)) = .ok MASK_CHILD := by
  with_unfolding_all decide

set_option maxHeartbeats 1000000 in
set_option maxRecDepth 100000 in
/-- C1 counterexample: on `dm7` with floor estimate 10, `detect_floor`
labels pixel `(3, 2)` `MASK_FLOOR`, yet the mask of `detect_objects`
carries segment id `-1` there: the flood fill pushes neighbours without
checking that they are unlabelled and relabels a FLOOR pixel. -/
theorem C1_counterexample :
    dm7.detect_floor 10 3 2 = MASK_FLOOR ∧
    ((dm7.detect_objects 10).map (fun r => r.1 3 2)) = .ok (-1) := by
  with_unfolding_all decide

/-- Every mask write of a successful `floodFill` run is `current_id`. -/
lemma floodFill_writes (w h : ℕ) (depth : ℕ → ℕ → ℚ) (cid : ℤ) :
    ∀ (fuel : ℕ) (mask : ℕ → ℕ → ℤ) (stack : List (ℤ × ℤ))
      (aabb : ℤ × ℤ × ℤ × ℤ) (mask' : ℕ → ℕ → ℤ) (aabb' : ℤ × ℤ × ℤ × ℤ),
      floodFill w h depth cid fuel mask stack aabb = .ok (mask', aabb') →
      ∀ a b, mask' a b = mask a b ∨ mask' a b = cid := by
  intro fuel
  induction fuel with
  | zero =>
    intro mask stack aabb mask' aabb' hok
    exact absurd hok (by simp [floodFill])
  | succ n ih =>
    intro mask stack aabb mask' aabb' hok a b
    match stack with
    | [] =>
      obtain ⟨a0, a1, a2, a3⟩ := aabb
      simp only [floodFill] at hok
      obtain ⟨hm, _⟩ := Prod.mk.injEq _ _ _ _ ▸ (Except.ok.injEq _ _ ▸ hok)
      rw [← hm]
      left
      rfl
    | (px, py) :: rest =>
      obtain ⟨a0, a1, a2, a3⟩ := aabb
      simp only [floodFill] at hok
      split at hok
      · split at hok
        · exact absurd hok (by simp)
        · rcases ih _ _ _ _ _ hok a b with hsame | hcid
          · rw [hsame]
            unfold updMask
            split
            · right; rfl
            · left; rfl
          · right; exact hcid
      · exact absurd hok (by simp)

/-- A successful `floodFill` run labels the pixel popped first with
`current_id` (later writes are also `current_id`, so the label sticks). -/
lemma floodFill_labels_head (w h : ℕ) (depth : ℕ → ℕ → ℚ) (cid : ℤ)
    (n : ℕ) (mask : ℕ → ℕ → ℤ) (px py : ℤ) (rest : List (ℤ × ℤ))
    (aabb : ℤ × ℤ × ℤ × ℤ) (mask' : ℕ → ℕ → ℤ) (aabb' : ℤ × ℤ × ℤ × ℤ)
    (hok : floodFill w h depth cid (n + 1) mask ((px, py) :: rest) aabb
      = .ok (mask', aabb'))
    (a b : ℕ) (hpx : npIndex w px = some a) (hpy : npIndex h py = some b) :
    mask' a b = cid := by
  obtain ⟨a0, a1, a2, a3⟩ := aabb
  simp only [floodFill, hpx, hpy] at hok
  split at hok
  · exact absurd hok (by simp)
  all_goals
    rcases floodFill_writes w h depth cid n _ _ _ _ _ hok a b with hsame | hcid
  all_goals try (rw [hsame]; unfold updMask; rw [if_pos ⟨rfl, rfl⟩])
  all_goals exact hcid

/-- A successful scan never turns a labelled pixel back to 0 (fills only
write the running negative id). -/
lemma scanLoop_preserves_nonzero (dm : Depthmap) :
    ∀ (pixels : List (ℕ × ℕ)) (mask : ℕ → ℕ → ℤ) (segs : List Segment)
      (cid : ℤ) (mask' : ℕ → ℕ → ℤ) (segs' : List Segment) (cid' : ℤ),
      scanLoop dm pixels mask segs cid = .ok (mask', segs', cid') →
      cid < 0 →
      ∀ a b, mask a b ≠ 0 → mask' a b ≠ 0 := by
  intro pixels
  induction pixels with
  | nil =>
    intro mask segs cid mask' segs' cid' hok hcid a b hne
    simp only [scanLoop] at hok
    obtain ⟨hm, _⟩ := Prod.mk.injEq _ _ _ _ ▸ (Except.ok.injEq _ _ ▸ hok)
    rw [← hm]
    exact hne
  | cons p rest ih =>
    intro mask segs cid mask' segs' cid' hok hcid a b hne
    obtain ⟨x, y⟩ := p
    simp only [scanLoop] at hok
    split at hok
    · exact ih _ _ _ _ _ _ hok hcid a b hne
    · split at hok
      · exact absurd hok (by simp)
      all_goals rename_i heq
      all_goals refine ih _ _ _ _ _ _ hok (by omega) a b ?_
      all_goals
        rcases floodFill_writes dm.width dm.height dm.depthmap_arr cid _ _ _ _ _ _
          heq a b with hsame | hcid'
      all_goals try (rw [hsame]; exact hne)
      all_goals rw [hcid']; omega

/-- Membership in the row-major scan order. -/
lemma mem_pixelList (w h x y : ℕ) (hx : x < w) (hy : y < h) :
    (x, y) ∈ pixelList w h := by
  unfold pixelList
  rw [List.mem_flatMap]
  exact ⟨x, List.mem_range.mpr hx, List.mem_map.mpr ⟨y, List.mem_range.mpr hy, rfl⟩⟩

/-- `detect_floor` only produces the values `MASK_FLOOR`, `MASK_INVALID`
and 0. -/
lemma detect_floor_values (dm : Depthmap) (floor : ℚ) (x y : ℕ) :
    dm.detect_floor floor x y = MASK_FLOOR ∨
    dm.detect_floor floor x y = MASK_INVALID ∨
    dm.detect_floor floor x y = 0 := by
  unfold Depthmap.detect_floor
  split
  · left; rfl
  · split
    · right; left; rfl
    · right; right; rfl

/-- The fill step of the scan: starting from an unlabelled seed `(x, y)`,
a successful fill plus a successful remaining scan keeps the value set and
labels the seed and all remaining pixels nonzero. -/
lemma scanLoop_fill_case (dm : Depthmap) (rest : List (ℕ × ℕ))
    (mask maskf : ℕ → ℕ → ℤ) (segs segs2 : List Segment) (cid : ℤ)
    (mask' : ℕ → ℕ → ℤ) (segs' : List Segment) (cid' : ℤ) (x y : ℕ)
    (aabb : ℤ × ℤ × ℤ × ℤ)
    (heq : floodFill dm.width dm.height dm.depthmap_arr cid
      (fillFuel dm.width dm.height) mask [((x : ℤ), (y : ℤ))]
      ((x : ℤ), (y : ℤ), (x : ℤ), (y : ℤ)) = .ok (maskf, aabb))
    (hok : scanLoop dm rest maskf segs2 (cid - 1) = .ok (mask', segs', cid'))
    (hcid : cid < 0) (hx : x < dm.width) (hy : y < dm.height)
    (hpixrest : ∀ p ∈ rest, p.1 < dm.width ∧ p.2 < dm.height)
    (hvals : ∀ a b, mask a b = MASK_FLOOR ∨ mask a b = MASK_INVALID ∨
      mask a b = 0 ∨ mask a b < 0)
    (ih : ∀ (mask : ℕ → ℕ → ℤ) (segs : List Segment) (cid : ℤ)
      (mask' : ℕ → ℕ → ℤ) (segs' : List Segment) (cid' : ℤ),
      scanLoop dm rest mask segs cid = .ok (mask', segs', cid') → cid < 0 →
      (∀ p ∈ rest, p.1 < dm.width ∧ p.2 < dm.height) →
      (∀ a b, mask a b = MASK_FLOOR ∨ mask a b = MASK_INVALID ∨
        mask a b = 0 ∨ mask a b < 0) →
      (∀ a b, mask' a b = MASK_FLOOR ∨ mask' a b = MASK_INVALID ∨
        mask' a b = 0 ∨ mask' a b < 0) ∧
      (∀ p ∈ rest, mask' p.1 p.2 ≠ 0)) :
    (∀ a b, mask' a b = MASK_FLOOR ∨ mask' a b = MASK_INVALID ∨
      mask' a b = 0 ∨ mask' a b < 0) ∧
    (∀ p ∈ (x, y) :: rest, mask' p.1 p.2 ≠ 0) := by
  have hvalsf : ∀ a b, maskf a b = MASK_FLOOR ∨ maskf a b = MASK_INVALID ∨
      maskf a b = 0 ∨ maskf a b < 0 := by
    intro a b
    rcases floodFill_writes dm.width dm.height dm.depthmap_arr cid _ _ _ _ _ _
      heq a b with hsame | hcid'
    · rw [hsame]; exact hvals a b
    · rw [hcid']; right; right; right; exact hcid
  obtain ⟨hvals', hrest⟩ := ih _ _ _ _ _ _ hok (by omega) hpixrest hvalsf
  refine ⟨hvals', ?_⟩
  intro q hq
  rcases List.mem_cons.mp hq with rfl | hq'
  · have hseed : maskf x y = cid := by
      obtain ⟨m, hm⟩ : ∃ m, fillFuel dm.width dm.height = m + 1 :=
        ⟨5 * (dm.width * dm.height + 1) - 1, by unfold fillFuel; omega⟩
      rw [hm] at heq
      exact floodFill_labels_head dm.width dm.height dm.depthmap_arr cid
        m _ _ _ _ _ _ _ heq x y
        (by unfold npIndex; rw [if_pos ⟨by omega, by exact_mod_cast hx⟩]; simp)
        (by unfold npIndex; rw [if_pos ⟨by omega, by exact_mod_cast hy⟩]; simp)
    have hnzf : maskf x y ≠ 0 := by omega
    exact scanLoop_preserves_nonzero dm _ _ _ _ _ _ _ hok (by omega) x y hnzf
  · exact hrest q hq'

/-- A successful scan keeps every mask value in
`{MASK_FLOOR, MASK_INVALID, 0} ∪ {negatives}` and labels every scanned
pixel with a nonzero value. -/
lemma scanLoop_label_set (dm : Depthmap) :
    ∀ (pixels : List (ℕ × ℕ)) (mask : ℕ → ℕ → ℤ) (segs : List Segment)
      (cid : ℤ) (mask' : ℕ → ℕ → ℤ) (segs' : List Segment) (cid' : ℤ),
      scanLoop dm pixels mask segs cid = .ok (mask', segs', cid') →
      cid < 0 →
      (∀ p ∈ pixels, p.1 < dm.width ∧ p.2 < dm.height) →
      (∀ a b, mask a b = MASK_FLOOR ∨ mask a b = MASK_INVALID ∨
        mask a b = 0 ∨ mask a b < 0) →
      (∀ a b, mask' a b = MASK_FLOOR ∨ mask' a b = MASK_INVALID ∨
        mask' a b = 0 ∨ mask' a b < 0) ∧
      (∀ p ∈ pixels, mask' p.1 p.2 ≠ 0) := by
  intro pixels
  induction pixels with
  | nil =>
    intro mask segs cid mask' segs' cid' hok hcid hpix hvals
    simp only [scanLoop] at hok
    obtain ⟨hm, _⟩ := Prod.mk.injEq _ _ _ _ ▸ (Except.ok.injEq _ _ ▸ hok)
    rw [← hm]
    exact ⟨hvals, fun p hp => absurd hp (List.not_mem_nil p)⟩
  | cons p rest ih =>
    intro mask segs cid mask' segs' cid' hok hcid hpix hvals
    obtain ⟨x, y⟩ := p
    have hx : x < dm.width := (hpix (x, y) (by simp)).1
    have hy : y < dm.height := (hpix (x, y) (by simp)).2
    simp only [scanLoop] at hok
    split at hok
    · rename_i hnz
      obtain ⟨hvals', hrest⟩ := ih _ _ _ _ _ _ hok hcid
        (fun q hq => hpix q (by simp [hq])) hvals
      refine ⟨hvals', ?_⟩
      intro q hq
      rcases List.mem_cons.mp hq with rfl | hq'
      · exact scanLoop_preserves_nonzero dm _ _ _ _ _ _ _ hok hcid x y hnz
      · exact hrest q hq'
    · split at hok
      · exact absurd hok (by simp)
      all_goals
        apply scanLoop_fill_case dm rest mask _ segs _ cid mask' segs' cid' x y _
          ?_ hok hcid hx hy (fun q hq => hpix q (by simp [hq])) hvals ih
      all_goals try assumption

/-- C1 amended: every in-range pixel of the mask returned by
`detect_objects` carries exactly one final label, which is `MASK_FLOOR`,
`MASK_INVALID`, or a (negative) segment id — no pixel stays 0; but the
flood fill pushes neighbours checking only depth validity and continuity,
not their label, so a pixel labelled FLOOR or INVALID by `detect_floor`
can end up relabelled to a segment id (see the counterexample). -/
theorem C1_mask_label_set (dm : Depthmap) (floor : ℚ) (x y : ℕ) (v : ℤ)
    (hx : x < dm.width) (hy : y < dm.height)
    (hok : (dm.detect_objects floor).map (fun r => r.1 x y) = .ok v) :
    v = MASK_FLOOR ∨ v = MASK_INVALID ∨ v < 0 := by
  unfold Depthmap.detect_objects at hok
  match hscan : scanLoop dm (pixelList dm.width dm.height)
      (dm.detect_floor floor) [] (-1) with
  | .error e =>
    rw [hscan] at hok
    exact absurd hok (by simp [Except.map])
  | .ok (mask', segs', cid') =>
    rw [hscan] at hok
    simp only [Except.map, Except.ok.injEq] at hok
    obtain ⟨hvals, hnz⟩ := scanLoop_label_set dm _ _ _ _ _ _ _ hscan
      (by omega)
      (by
        intro p hp
        unfold pixelList at hp
        rw [List.mem_flatMap] at hp
        obtain ⟨a, ha, hp'⟩ := hp
        rw [List.mem_map] at hp'
        obtain ⟨b, hb, rfl⟩ := hp'
        exact ⟨List.mem_range.mp ha, List.mem_range.mp hb⟩)
      (by
        intro a b
        rcases detect_floor_values dm floor a b with h | h | h
        · left; exact h
        · right; left; exact h
        · right; right; left; exact h)
    have hmem := hnz (x, y) (mem_pixelList dm.width dm.height x y hx hy)
    rcases hvals x y with h | h | h | h
    · left; rw [← hok]; exact h
    · right; left; rw [← hok]; exact h
    · exact absurd h hmem
    · right; right; rw [← hok]; exact h

set_option maxHeartbeats 1000000 in
set_option maxRecDepth 100000 in
/-- Witness for C1's amended statement at a concrete input: the final
label of pixel `(3, 2)` on `dm7` (which is `-1`) lies in the allowed
label set. -/
theorem C1_mask_label_set_witness :
    (-1 : ℤ) = MASK_FLOOR ∨ (-1 : ℤ) = MASK_INVALID ∨ (-1 : ℤ) < 0 :=
  C1_mask_label_set dm7 10 3 2 (-1) (by decide) (by decide)
    (by with_unfolding_all decide)

/-- A successful numpy index lookup means the raw index was in the
accepted range `[-n, n)`. -/
lemma npIndex_some_range (n : ℕ) (i : ℤ) (a : ℕ)
    (hsome : npIndex n i = some a) : -(n : ℤ) ≤ i ∧ i < n := by
  unfold npIndex at hsome
  split_ifs at hsome with h1 h2
  · omega
  · omega

/-- Validity of a raw stack pixel: coordinates in numpy's accepted index
range. -/
def pixValid (w h : ℕ) (p : ℤ × ℤ) : Prop :=
  -(w : ℤ) ≤ p.1 ∧ p.1 < w ∧ -(h : ℤ) ≤ p.2 ∧ p.2 < h

/-- `tryPush` only ever pushes pixels whose depth read succeeded, so every
pixel of its output stack is in numpy's accepted range. -/
lemma tryPush_valid (w h : ℕ) (depth : ℕ → ℕ → ℚ) (dc : ℚ)
    (stack stack' : List (ℤ × ℤ)) (px py : ℤ)
    (hok : tryPush w h depth dc stack px py = .ok stack')
    (hstack : ∀ p ∈ stack, pixValid w h p) :
    ∀ p ∈ stack', pixValid w h p := by
  cases hpx : npIndex w px with
  | none => simp [tryPush, hpx] at hok
  | some a =>
    cases hpy : npIndex h py with
    | none => simp [tryPush, hpx, hpy] at hok
    | some b =>
      simp only [tryPush, hpx, hpy, Except.ok.injEq] at hok
      have hrx := npIndex_some_range w px a hpx
      have hry := npIndex_some_range h py b hpy
      intro p hp
      rw [← hok] at hp
      by_cases hc : depth a b > 0 ∧ |depth a b - dc| < 1/10
      · rw [if_pos hc] at hp
        rcases List.mem_cons.mp hp with rfl | hp'
        · exact ⟨hrx.1, hrx.2, hry.1, hry.2⟩
        · exact hstack p hp'
      · rw [if_neg hc] at hp
        exact hstack p hp

/-- Validity of a bounding box: both corners within numpy's accepted
range and in order. -/
def aabbOk (w h : ℕ) (r : ℤ × ℤ × ℤ × ℤ) : Prop :=
  -(w : ℤ) ≤ r.1 ∧ r.1 ≤ r.2.2.1 ∧ r.2.2.1 < w ∧
  -(h : ℤ) ≤ r.2.1 ∧ r.2.1 ≤ r.2.2.2 ∧ r.2.2.2 < h

/-- Every pixel a successful `floodFill` visits has coordinates in
numpy's accepted range, so the bounding box stays in that range. -/
lemma floodFill_aabb (w h : ℕ) (depth : ℕ → ℕ → ℚ) (cid : ℤ) :
    ∀ (fuel : ℕ) (mask : ℕ → ℕ → ℤ) (stack : List (ℤ × ℤ))
      (aabb : ℤ × ℤ × ℤ × ℤ) (mask' : ℕ → ℕ → ℤ) (aabb' : ℤ × ℤ × ℤ × ℤ),
      floodFill w h depth cid fuel mask stack aabb = .ok (mask', aabb') →
      (∀ p ∈ stack, pixValid w h p) →
      aabbOk w h aabb →
      aabbOk w h aabb' := by
  intro fuel
  induction fuel with
  | zero =>
    intro mask stack aabb mask' aabb' hok
    exact absurd hok (by simp [floodFill])
  | succ n ih =>
    intro mask stack aabb mask' aabb' hok hstack haabb
    match stack with
    | [] =>
      obtain ⟨a0, a1, a2, a3⟩ := aabb
      simp only [floodFill] at hok
      obtain ⟨_, hr⟩ := Prod.mk.injEq _ _ _ _ ▸ (Except.ok.injEq _ _ ▸ hok)
      rw [← hr]
      exact haabb
    | (px, py) :: rest =>
      obtain ⟨a0, a1, a2, a3⟩ := aabb
      have hpv : pixValid w h (px, py) := hstack (px, py) (by simp)
      have hrestv : ∀ p ∈ rest, pixValid w h p :=
        fun p hp => hstack p (by simp [hp])
      simp only [floodFill] at hok
      cases hpx : npIndex w px with
      | none => rw [hpx] at hok; simp at hok
      | some a =>
        cases hpy : npIndex h py with
        | none => rw [hpx, hpy] at hok; simp at hok
        | some b =>
          rw [hpx, hpy] at hok
          simp only at hok
          split at hok
          · exact absurd hok (by simp)
          all_goals rename_i stack' heq
          all_goals
            refine ih _ _ _ _ _ hok ?_ ?_
          all_goals try
            (obtain ⟨h1, h2, h3, h4⟩ := hpv
             unfold aabbOk at haabb ⊢
             simp only at haabb ⊢
             omega)
          all_goals
            by_cases hm : mask a b = 0
          · rw [if_pos hm] at heq
            obtain ⟨s1, hs1, hrest1⟩ : ∃ s1, tryPush w h depth (depth a b) rest
                (px - 1) py = .ok s1 ∧
                (do
                  let s2 ← tryPush w h depth (depth a b) s1 (px + 1) py
                  let s3 ← tryPush w h depth (depth a b) s2 px (py - 1)
                  tryPush w h depth (depth a b) s3 px (py + 1)) = .ok stack' := by
              cases h1 : tryPush w h depth (depth a b) rest (px - 1) py with
              | error e => rw [h1] at heq; simp [Bind.bind, Except.bind] at heq
              | ok s1 => rw [h1] at heq; exact ⟨s1, rfl, heq⟩
            obtain ⟨s2, hs2, hrest2⟩ : ∃ s2, tryPush w h depth (depth a b) s1
                (px + 1) py = .ok s2 ∧
                (do
                  let s3 ← tryPush w h depth (depth a b) s2 px (py - 1)
                  tryPush w h depth (depth a b) s3 px (py + 1)) = .ok stack' := by
              cases h2 : tryPush w h depth (depth a b) s1 (px + 1) py with
              | error e => rw [h2] at hrest1; simp [Bind.bind, Except.bind] at hrest1
              | ok s2 => rw [h2] at hrest1; exact ⟨s2, rfl, hrest1⟩
            obtain ⟨s3, hs3, hrest3⟩ : ∃ s3, tryPush w h depth (depth a b) s2
                px (py - 1) = .ok s3 ∧
                tryPush w h depth (depth a b) s3 px (py + 1) = .ok stack' := by
              cases h3 : tryPush w h depth (depth a b) s2 px (py - 1) with
              | error e => rw [h3] at hrest2; simp [Bind.bind, Except.bind] at hrest2
              | ok s3 => rw [h3] at hrest2; exact ⟨s3, rfl, hrest2⟩
            exact tryPush_valid w h depth _ _ _ _ _ hrest3
              (tryPush_valid w h depth _ _ _ _ _ hs3
                (tryPush_valid w h depth _ _ _ _ _ hs2
                  (tryPush_valid w h depth _ _ _ _ _ hs1 hrestv)))
          · rw [if_neg hm] at heq
            obtain rfl : rest = stack' := by
              simpa using heq
            exact hrestv

/-- The fill step of the scan preserves bounding-box validity of the
accepted segments: the new segment's box comes from the fill, whose
visited pixels all sit in numpy's accepted range. -/
lemma scanLoop_aabb_fill_case (dm : Depthmap) (rest : List (ℕ × ℕ))
    (mask maskf : ℕ → ℕ → ℤ) (segs segs2 : List Segment) (cid : ℤ)
    (mask' : ℕ → ℕ → ℤ) (segs' : List Segment) (cid' : ℤ) (x y : ℕ)
    (fb : ℤ × ℤ × ℤ × ℤ)
    (heq : floodFill dm.width dm.height dm.depthmap_arr cid
      (fillFuel dm.width dm.height) mask [((x : ℤ), (y : ℤ))]
      ((x : ℤ), (y : ℤ), (x : ℤ), (y : ℤ)) = .ok (maskf, fb))
    (hok : scanLoop dm rest maskf segs2 (cid - 1) = .ok (mask', segs', cid'))
    (hsegs2 : ∀ s ∈ segs2, s ∈ segs ∨ s.aabb = fb)
    (hx : x < dm.width) (hy : y < dm.height)
    (hpixrest : ∀ p ∈ rest, p.1 < dm.width ∧ p.2 < dm.height)
    (hsegs : ∀ s ∈ segs, aabbOk dm.width dm.height s.aabb)
    (ih : ∀ (mask : ℕ → ℕ → ℤ) (segs : List Segment) (cid : ℤ)
      (mask' : ℕ → ℕ → ℤ) (segs' : List Segment) (cid' : ℤ),
      scanLoop dm rest mask segs cid = .ok (mask', segs', cid') →
      (∀ p ∈ rest, p.1 < dm.width ∧ p.2 < dm.height) →
      (∀ s ∈ segs, aabbOk dm.width dm.height s.aabb) →
      ∀ s ∈ segs', aabbOk dm.width dm.height s.aabb) :
    ∀ s ∈ segs', aabbOk dm.width dm.height s.aabb := by
  have hfb : aabbOk dm.width dm.height fb :=
    floodFill_aabb dm.width dm.height dm.depthmap_arr cid _ _ _ _ _ _ heq
      (by
        intro p hp
        rcases List.mem_cons.mp hp with rfl | hp'
        · show -(dm.width : ℤ) ≤ (x : ℤ) ∧ (x : ℤ) < dm.width ∧
            -(dm.height : ℤ) ≤ (y : ℤ) ∧ (y : ℤ) < dm.height
          exact ⟨by omega, by omega, by omega, by omega⟩
        · exact absurd hp' (List.not_mem_nil p))
      (by
        show -(dm.width : ℤ) ≤ (x : ℤ) ∧ (x : ℤ) ≤ (x : ℤ) ∧
            (x : ℤ) < dm.width ∧ -(dm.height : ℤ) ≤ (y : ℤ) ∧
            (y : ℤ) ≤ (y : ℤ) ∧ (y : ℤ) < dm.height
        exact ⟨by omega, le_refl _, by omega, by omega, le_refl _, by omega⟩)
  refine ih _ _ _ _ _ _ hok hpixrest ?_
  intro s hs
  rcases hsegs2 s hs with h1 | h2
  · exact hsegs s h1
  · rw [h2]
    exact hfb

/-- A successful scan only records segments whose bounding boxes are in
numpy's accepted index range. -/
lemma scanLoop_segs_aabb (dm : Depthmap) :
    ∀ (pixels : List (ℕ × ℕ)) (mask : ℕ → ℕ → ℤ) (segs : List Segment)
      (cid : ℤ) (mask' : ℕ → ℕ → ℤ) (segs' : List Segment) (cid' : ℤ),
      scanLoop dm pixels mask segs cid = .ok (mask', segs', cid') →
      (∀ p ∈ pixels, p.1 < dm.width ∧ p.2 < dm.height) →
      (∀ s ∈ segs, aabbOk dm.width dm.height s.aabb) →
      ∀ s ∈ segs', aabbOk dm.width dm.height s.aabb := by
  intro pixels
  induction pixels with
  | nil =>
    intro mask segs cid mask' segs' cid' hok hpix hsegs
    simp only [scanLoop] at hok
    have h := Except.ok.inj hok
    have hseg : segs = segs' := congrArg (fun t => t.2.1) h
    rw [← hseg]
    exact hsegs
  | cons p rest ih =>
    intro mask segs cid mask' segs' cid' hok hpix hsegs
    obtain ⟨x, y⟩ := p
    have hx : x < dm.width := (hpix (x, y) (by simp)).1
    have hy : y < dm.height := (hpix (x, y) (by simp)).2
    simp only [scanLoop] at hok
    split at hok
    · exact ih _ _ _ _ _ _ hok (fun q hq => hpix q (by simp [hq])) hsegs
    · split at hok
      · exact absurd hok (by simp)
      all_goals rename_i heq
      all_goals
        apply scanLoop_aabb_fill_case dm rest mask _ segs _ cid mask' segs'
          cid' x y _ ?_ hok ?_ hx hy (fun q hq => hpix q (by simp [hq])) hsegs ih
      all_goals try assumption
      all_goals
        intro s hs
      all_goals
        split at hs
      all_goals try (exact Or.inl hs)
      all_goals
        rcases List.mem_append.mp hs with h1 | h2
      all_goals try (exact Or.inl h1)
      all_goals
        simp only [List.mem_singleton] at h2
      all_goals rw [h2]
      all_goals exact Or.inr rfl

set_option maxHeartbeats 1000000 in
set_option maxRecDepth 100000 in
/-- C5 counterexample: the out-of-bounds branch of the embedded indexing
is reachable — on `dm4` the scan seeds the fill at the last-row pixel
`(3, 3)`, whose expansion reads the neighbour at `x = 4 = width`, and
`detect_objects` aborts with an index error instead of staying inside the
grid. -/
theorem C5_counterexample :
    (dm4.detect_objects 0).map Prod.snd = .error "index out of bounds" := by
  with_unfolding_all decide

/-- C5 amended: the flood fill's reads follow numpy indexing — an index in
`[-n, n)` is accepted (a negative one wrapping to the opposite border) and
anything else raises — so on a successful run every visited coordinate,
and hence every accepted bounding box, lies within
`[-width, width) × [-height, height)` rather than within the grid. -/
theorem C5_segment_boxes_in_numpy_range (dm : Depthmap) (floor : ℚ)
    (segs : List Segment)
    (hok : (dm.detect_objects floor).map Prod.snd = .ok segs) :
    ∀ s ∈ segs, -(dm.width : ℤ) ≤ s.aabb.1 ∧ s.aabb.1 ≤ s.aabb.2.2.1 ∧
      s.aabb.2.2.1 < dm.width ∧ -(dm.height : ℤ) ≤ s.aabb.2.1 ∧
      s.aabb.2.1 ≤ s.aabb.2.2.2 ∧ s.aabb.2.2.2 < dm.height := by
  unfold Depthmap.detect_objects at hok
  match hscan : scanLoop dm (pixelList dm.width dm.height)
      (dm.detect_floor floor) [] (-1) with
  | .error e =>
    rw [hscan] at hok
    exact absurd hok (by simp [Except.map])
  | .ok (mask2, segs2, cid2) =>
    rw [hscan] at hok
    simp only [Except.map, Except.ok.injEq] at hok
    have hall := scanLoop_segs_aabb dm _ _ _ _ _ _ _ hscan
      (by
        intro p hp
        unfold pixelList at hp
        rw [List.mem_flatMap] at hp
        obtain ⟨a, ha, hp'⟩ := hp
        rw [List.mem_map] at hp'
        obtain ⟨b, hb, rfl⟩ := hp'
        exact ⟨List.mem_range.mp ha, List.mem_range.mp hb⟩)
      (fun s hs => absurd hs (List.not_mem_nil s))
    intro s hs
    rw [← hok] at hs
    exact hall s hs

set_option maxHeartbeats 1000000 in
set_option maxRecDepth 100000 in
/-- Witness for C5's amended statement at a concrete input: the single
segment accepted on `dm7` has its box `(1, 1, 5, 5)` inside the accepted
range. -/
theorem C5_segment_boxes_in_numpy_range_witness :
    -(dm7.width : ℤ) ≤ (1 : ℤ) ∧ (1 : ℤ) ≤ (5 : ℤ) ∧
    (5 : ℤ) < dm7.width ∧ -(dm7.height : ℤ) ≤ (1 : ℤ) ∧
    (1 : ℤ) ≤ (5 : ℤ) ∧ (5 : ℤ) < dm7.height :=
  C5_segment_boxes_in_numpy_range dm7 10 [⟨-1, (1, 1, 5, 5)⟩]
    (by with_unfolding_all decide) ⟨-1, (1, 1, 5, 5)⟩ (by decide)
